import Mathlib

/-!
Verification of the training-log parsing and tick computation of `plot.py`
(repository RL-2048).

The Python source is shallowly embedded: strings are lists of characters,
the parser's mutable locals become an explicit state record threaded through
a fold over the lines, and Python exceptions (`IndexError` from an
out-of-range subscript, `ValueError` from `int`/`float`/`range`) become the
error side of `Except`.  The three regular expressions of
`parse_2048_training_data` contain no alternation and every repeated
character class is disjoint from the character that must follow it, so each
one is embedded as a deterministic greedy scanner; `re.search` is embedded
as the leftmost anchored match over all suffixes.
-/

/-- The characters `str.strip` removes and `\s` matches (ASCII range). -/
def isPySpace (c : Char) : Bool :=
  c = ' ' || c = '\t' || c = '\n' || c = '\r' || c = '\x0b' || c = '\x0c'

/-- The character class `[\d.]` of the numeric tokens. -/
def isNumC (c : Char) : Bool := c.isDigit || c = '.'

/-- Python `str.strip()`: drop whitespace from both ends. -/
def pyStrip (l : List Char) : List Char :=
  ((l.dropWhile isPySpace).reverse.dropWhile isPySpace).reverse

/-- Python `str.split('\n')`: always returns at least one piece. -/
def splitNl : List Char → List (List Char)
  | [] => [[]]
  | '\n' :: rest => [] :: splitNl rest
  | c :: rest =>
    match splitNl rest with
    | s :: ss => (c :: s) :: ss
    | [] => [[c]]

/-- Python `str.startswith`: `startsW pat l` is true when `pat` is a
leading segment of `l`. -/
def startsW : List Char → List Char → Bool
  | [], _ => true
  | _ :: _, [] => false
  | c :: cs, x :: xs => x = c && startsW cs xs

/-- Python `str.split(' = ')`: cut at every non-overlapping occurrence of
the three-character separator, scanning left to right. -/
def splitEq : List Char → List (List Char)
  | [] => [[]]
  | ' ' :: '=' :: ' ' :: rest => [] :: splitEq rest
  | c :: rest =>
    match splitEq rest with
    | s :: ss => (c :: s) :: ss
    | [] => [[c]]

/-- The part of a line strictly before the first ` = ` separator
(the whole line when the separator is absent). -/
def takeUntilSep : List Char → List Char
  | [] => []
  | ' ' :: '=' :: ' ' :: _ => []
  | c :: rest => c :: takeUntilSep rest

/-- The part of a line strictly after the first ` = ` separator, as the
spec's words describe the stored metadata value; `none` when the separator
is absent. -/
def afterFirstSep : List Char → Option (List Char)
  | [] => none
  | ' ' :: '=' :: ' ' :: rest => some rest
  | _ :: rest => afterFirstSep rest

/-- Whether the three-character separator ` = ` occurs anywhere in the line. -/
def hasSep : List Char → Bool
  | [] => false
  | ' ' :: '=' :: ' ' :: _ => true
  | _ :: rest => hasSep rest

/-- Greedy `+` repetition of a character class: fails on an empty run,
otherwise returns the input without its maximal leading run. -/
def eatPlus (p : Char → Bool) (l : List Char) : Option (List Char) :=
  if (l.takeWhile p).isEmpty then none else some (l.dropWhile p)

/-- A literal token of a regular expression: returns the input without the
literal, or `none` when the literal is not a leading segment. -/
def eatLitC : List Char → List Char → Option (List Char)
  | [], l => some l
  | _ :: _, [] => none
  | c :: cs, x :: xs => if x = c then eatLitC cs xs else none

def meanLit : List Char := ['m', 'e', 'a', 'n']
def maxLit : List Char := ['m', 'a', 'x']
def eqLit : List Char := ['=']
def lit2048 : List Char := ['2', '0', '4', '8']
def alphaPre : List Char := ['a', 'l', 'p', 'h', 'a', ' ', '=', ' ']
def totalPre : List Char := ['t', 'o', 't', 'a', 'l', ' ', '=', ' ']
def seedPre : List Char := ['s', 'e', 'e', 'd', ' ', '=', ' ']

/-- The fragment `mean\s*=\s*([\d.]+)` anchored at the head of the input:
on success, the captured group together with the input after it.  This is
both the leading fragment of the coarse episode pattern (after
`^\d+\s+`) and the whole of the secondary `re.search` pattern for the
mean value. -/
def meanEqTok (l : List Char) : Option (List Char × List Char) :=
  match eatLitC meanLit l with
  | none => none
  | some r =>
    match eatLitC eqLit (r.dropWhile isPySpace) with
    | none => none
    | some r =>
      let r := r.dropWhile isPySpace
      let tok := r.takeWhile isNumC
      if tok.isEmpty then none else some (tok, r.dropWhile isNumC)

/-- `re.match(r'^\d+\s+mean\s*=\s*[\d.]+\s+max\s*=\s*[\d.]+', line)` as a
Boolean: the coarse classification of an episode line. -/
def matchEpisode (l : List Char) : Bool :=
  match eatPlus Char.isDigit l with
  | none => false
  | some r =>
  match eatPlus isPySpace r with
  | none => false
  | some r =>
  match meanEqTok r with
  | none => false
  | some (_, r) =>
  match eatPlus isPySpace r with
  | none => false
  | some r =>
  match eatLitC maxLit r with
  | none => false
  | some r =>
  match eatLitC eqLit (r.dropWhile isPySpace) with
  | none => false
  | some r => !((r.dropWhile isPySpace).takeWhile isNumC).isEmpty

/-- `re.search(r'mean\s*=\s*([\d.]+)', line)`: the captured group of the
leftmost match. -/
def searchMean : List Char → Option (List Char)
  | [] => none
  | c :: cs =>
    match meanEqTok (c :: cs) with
    | some (tok, _) => some tok
    | none => searchMean cs

/-- The fragment `2048\s+([\d.]+)%` anchored at the head of the input:
on success, the captured group. -/
def probTok (l : List Char) : Option (List Char) :=
  match eatLitC lit2048 l with
  | none => none
  | some r =>
  match eatPlus isPySpace r with
  | none => none
  | some r =>
    let tok := r.takeWhile isNumC
    if tok.isEmpty then none
    else
      match r.dropWhile isNumC with
      | '%' :: _ => some tok
      | _ => none

/-- `re.match(r'^\s*2048\s+[\d.]+%', line)` as a Boolean: the coarse
classification of a probability line. -/
def matchProb (l : List Char) : Bool :=
  (probTok (l.dropWhile isPySpace)).isSome

/-- `re.search(r'2048\s+([\d.]+)%', line)`: the captured group of the
leftmost match. -/
def searchProb : List Char → Option (List Char)
  | [] => none
  | c :: cs =>
    match probTok (c :: cs) with
    | some tok => some tok
    | none => searchProb cs

/-- The numeric value of a digit string. -/
def natOfDigits (l : List Char) : ℕ :=
  l.foldl (fun a c => 10 * a + (c.toNat - 48)) 0

/-- Python `int(s)` on the tokens reaching it here (whitespace-free):
succeeds exactly on a nonempty run of digits. -/
def pyInt (l : List Char) : Option ℕ :=
  if !l.isEmpty && l.all Char.isDigit then some (natOfDigits l) else none

/-- Python `float(s)` on tokens drawn from the class `[\d.]+`: succeeds
exactly when the token holds at least one digit and at most one dot, with
the exact decimal value as a rational
(`digits.fractional` is `(digits * 10 ^ k + fractional) / 10 ^ k`). -/
def pyFloat (l : List Char) : Option ℚ :=
  let ip := l.takeWhile Char.isDigit
  match l.drop ip.length with
  | [] => if ip.isEmpty then none else some (mkRat (natOfDigits ip) 1)
  | '.' :: fp =>
    if fp.all Char.isDigit && !(ip.isEmpty && fp.isEmpty) then
      some (mkRat (natOfDigits ip * 10 ^ fp.length + natOfDigits fp) (10 ^ fp.length))
    else none
  | _ => none

/-- The metadata dictionary of the parser: the closed key set
`alpha`, `total`, `seed`, each absent until a matching line stores it. -/
structure Metadata where
  alpha : Option (List Char)
  total : Option (List Char)
  seed : Option (List Char)
  deriving DecidableEq

/-- The Python exceptions the embedded code can raise. -/
inductive PyErr where
  | indexError : PyErr
  | valueError : PyErr
  deriving DecidableEq

/-- The parser's four accumulators. -/
structure ParseState where
  metadata : Metadata
  episodes : List ℕ
  means : List ℚ
  prob2048 : List ℚ
  deriving DecidableEq

deriving instance DecidableEq for Except

/-- The state before the loop: empty metadata and the three sentinel
entries `episodes = [0]`, `means = [0]`, `prob2048 = [0.0]`. -/
def initState : ParseState :=
  { metadata := { alpha := none, total := none, seed := none }
    episodes := [0]
    means := [0]
    prob2048 := [0] }

/-- One iteration of the parser's loop body on a raw line: strip it, then
classify it by the source's `if`/`elif` chain and update the state, or
raise. -/
def processLine (st : ParseState) (raw : List Char) : Except PyErr ParseState :=
  let line := pyStrip raw
  if startsW alphaPre line then
    match (splitEq line).get? 1 with
    | some v => .ok { st with metadata := { st.metadata with alpha := some v } }
    | none => .error .indexError
  else if startsW totalPre line then
    match (splitEq line).get? 1 with
    | some v => .ok { st with metadata := { st.metadata with total := some v } }
    | none => .error .indexError
  else if startsW seedPre line then
    match (splitEq line).get? 1 with
    | some v => .ok { st with metadata := { st.metadata with seed := some v } }
    | none => .error .indexError
  else if matchEpisode line then
    let parts0 := line.takeWhile (fun c => !isPySpace c)
    let prob' := st.prob2048 ++ [(0 : ℚ)]
    match pyInt parts0 with
    | none => .error .valueError
    | some ep =>
      match searchMean line with
      | none => .ok { st with prob2048 := prob' }
      | some tok =>
        match pyFloat tok with
        | none => .error .valueError
        | some m =>
          .ok { st with episodes := st.episodes ++ [ep]
                        means := st.means ++ [m]
                        prob2048 := prob' }
  else if matchProb line then
    match searchProb line with
    | none => .ok st
    | some tok =>
      match pyFloat tok with
      | none => .error .valueError
      | some p =>
        if st.prob2048.isEmpty then .error .indexError
        else .ok { st with prob2048 := st.prob2048.dropLast ++ [p] }
  else .ok st

/-- The parser's loop over the lines. -/
def parseLines (st : ParseState) : List (List Char) → Except PyErr ParseState
  | [] => .ok st
  | raw :: rest =>
    match processLine st raw with
    | .ok st' => parseLines st' rest
    | .error e => .error e

/-- `data.strip().split('\n')`. -/
def linesOf (data : List Char) : List (List Char) :=
  splitNl (pyStrip data)

/-- The whole parser as a state transformer. -/
def runParse (data : List Char) : Except PyErr ParseState :=
  parseLines initState (linesOf data)

/-- `parse_2048_training_data` of `plot.py`: either the quadruple
`(metadata, episodes, means, prob2048)` or the exception the call raises. -/
def parse_2048_training_data (data : List Char) :
    Except PyErr (Metadata × List ℕ × List ℚ × List ℚ) :=
  (runParse data).map fun st => (st.metadata, st.episodes, st.means, st.prob2048)

/-- Python `range(start, stop, step)` for a nonnegative step, as the list
of its elements; `range` itself raises on a zero step, which the caller
below models. -/
def pyRange (start stop step : ℕ) : List ℕ :=
  (List.range ((stop - start + step - 1) / step)).map fun i => start + i * step

/-- The x-tick computation of `plot_2048_training_results` (performed
identically for both charts): guarded by `if episodes:`, it builds
`range(x_min, x_max, (x_max - x_min) // 10)` with
`x_min = min(episodes) // 1000 * 1000` and
`x_max = max(episodes) // 1000 * 1000 + 1`; `range` raises `ValueError`
when the step is zero. -/
def xticksOf (episodes : List ℕ) : Except PyErr (List ℕ) :=
  match episodes with
  | [] => .ok []
  | e :: es =>
    let xMin := (es.foldl min e) / 1000 * 1000
    let xMax := (es.foldl max e) / 1000 * 1000 + 1
    if (xMax - xMin) / 10 = 0 then .error .valueError
    else .ok (pyRange xMin xMax ((xMax - xMin) / 10))

/-- Ticks as the spec's words describe them: ten evenly spaced steps
spanning from `floor(min/1000)*1000` to `floor(max/1000)*1000 + 1000`. -/
def specXticks (episodes : List ℕ) : List ℕ :=
  match episodes with
  | [] => []
  | e :: es =>
    let xMin := (es.foldl min e) / 1000 * 1000
    let xMax := (es.foldl max e) / 1000 * 1000 + 1000
    pyRange xMin xMax ((xMax - xMin) / 10)

/-- The value a metadata line stores, phrased as the spec's words amended
by the code's behavior: the part of the line after the first ` = `
separator, truncated at the next occurrence of ` = `. -/
def specMetaVal (l : List Char) : List Char :=
  takeUntilSep ((afterFirstSep l).getD [])

/-- Occurrence of an `alpha` metadata line, with its stored value. -/
def alphaVal (raw : List Char) : Option (List Char) :=
  let l := pyStrip raw
  if startsW alphaPre l then some (specMetaVal l) else none

/-- Occurrence of a `total` metadata line, with its stored value. -/
def totalVal (raw : List Char) : Option (List Char) :=
  let l := pyStrip raw
  if startsW totalPre l then some (specMetaVal l) else none

/-- Occurrence of a `seed` metadata line, with its stored value. -/
def seedVal (raw : List Char) : Option (List Char) :=
  let l := pyStrip raw
  if startsW seedPre l then some (specMetaVal l) else none

/-- A raw line that the `elif` chain classifies as an episode line: no
metadata prefix matches and the coarse episode pattern does. -/
def isEpCase (raw : List Char) : Bool :=
  let l := pyStrip raw
  !startsW alphaPre l && !startsW totalPre l && !startsW seedPre l &&
    matchEpisode l

/-- A raw line that the `elif` chain classifies as a probability line. -/
def isProbCase (raw : List Char) : Bool :=
  let l := pyStrip raw
  !startsW alphaPre l && !startsW totalPre l && !startsW seedPre l &&
    !matchEpisode l && matchProb l

/-- An episode line whose secondary `mean` extraction fails: the source of
the misalignment the spec documents. -/
def epFails (raw : List Char) : Bool :=
  isEpCase raw && (searchMean (pyStrip raw)).isNone

/-- A raw line none of whose extracted numeric tokens makes `float` raise:
the guard under which the parse is total. -/
def goodLine (raw : List Char) : Bool :=
  let l := pyStrip raw
  (!isEpCase raw ||
    (match searchMean l with
     | some tok => (pyFloat tok).isSome
     | none => true)) &&
  (!isProbCase raw ||
    (match searchProb l with
     | some tok => (pyFloat tok).isSome
     | none => true))

/-- A raw line matching none of the five patterns of the chain. -/
def noMatchB (raw : List Char) : Bool :=
  let l := pyStrip raw
  !startsW alphaPre l && !startsW totalPre l && !startsW seedPre l &&
    !matchEpisode l && !matchProb l

/-- The structural invariant of the parser state: the three sequences are
index-aligned and the probability sequence is never empty. -/
def stateInv (st : ParseState) : Prop :=
  st.episodes.length = st.means.length ∧
    st.means.length = st.prob2048.length ∧ st.prob2048 ≠ []

/-! ## Basic lemmas about the string helpers -/

theorem get0_eq_head (l : List (List Char)) : l.get? 0 = l.head? := by
  cases l <;> rfl

theorem startsW_iff {p l : List Char} : startsW p l = true ↔ ∃ r, l = p ++ r := by
  induction p generalizing l with
  | nil => simp [startsW]
  | cons c cs ih =>
    cases l with
    | nil => simp [startsW]
    | cons x xs =>
      simp only [startsW, Bool.and_eq_true, decide_eq_true_eq, ih, List.cons_append]
      constructor
      · rintro ⟨rfl, r, rfl⟩
        exact ⟨r, rfl⟩
      · rintro ⟨r, hr⟩
        injection hr with h1 h2
        exact ⟨h1, r, h2⟩

theorem splitEq_head (l : List Char) : (splitEq l).head? = some (takeUntilSep l) := by
  induction l using splitEq.induct with
  | case1 => rfl
  | case2 rest ih => rfl
  | case3 c rest h s ss hss ih =>
    rw [splitEq.eq_3 c rest h, takeUntilSep.eq_3 c rest h, hss]
    rw [hss] at ih
    simp only [List.head?, Option.some.injEq] at ih ⊢
    rw [ih]
  | case4 c rest h hss ih =>
    rw [hss] at ih
    simp at ih

theorem splitEq_alphaPre (r : List Char) :
    splitEq (alphaPre ++ r) = ['a', 'l', 'p', 'h', 'a'] :: splitEq r := rfl

theorem splitEq_totalPre (r : List Char) :
    splitEq (totalPre ++ r) = ['t', 'o', 't', 'a', 'l'] :: splitEq r := rfl

theorem splitEq_seedPre (r : List Char) :
    splitEq (seedPre ++ r) = ['s', 'e', 'e', 'd'] :: splitEq r := rfl

theorem specMetaVal_alphaPre (r : List Char) :
    specMetaVal (alphaPre ++ r) = takeUntilSep r := rfl

theorem specMetaVal_totalPre (r : List Char) :
    specMetaVal (totalPre ++ r) = takeUntilSep r := rfl

theorem specMetaVal_seedPre (r : List Char) :
    specMetaVal (seedPre ++ r) = takeUntilSep r := rfl

theorem splitEq_get1_alpha (l : List Char) (h : startsW alphaPre l = true) :
    (splitEq l).get? 1 = some (specMetaVal l) := by
  obtain ⟨r, rfl⟩ := startsW_iff.mp h
  rw [splitEq_alphaPre, specMetaVal_alphaPre]
  show (splitEq r).get? 0 = some (takeUntilSep r)
  rw [get0_eq_head, splitEq_head]

theorem splitEq_get1_total (l : List Char) (h : startsW totalPre l = true) :
    (splitEq l).get? 1 = some (specMetaVal l) := by
  obtain ⟨r, rfl⟩ := startsW_iff.mp h
  rw [splitEq_totalPre, specMetaVal_totalPre]
  show (splitEq r).get? 0 = some (takeUntilSep r)
  rw [get0_eq_head, splitEq_head]

theorem splitEq_get1_seed (l : List Char) (h : startsW seedPre l = true) :
    (splitEq l).get? 1 = some (specMetaVal l) := by
  obtain ⟨r, rfl⟩ := startsW_iff.mp h
  rw [splitEq_seedPre, specMetaVal_seedPre]
  show (splitEq r).get? 0 = some (takeUntilSep r)
  rw [get0_eq_head, splitEq_head]

/-! ## Lemmas about the embedded regular expressions -/

theorem eatPlus_some {p : Char → Bool} {l r : List Char}
    (h : eatPlus p l = some r) :
    l.takeWhile p ≠ [] ∧ r = l.dropWhile p := by
  unfold eatPlus at h
  split at h
  · exact absurd h (by simp)
  · rename_i he
    simp only [List.isEmpty_eq_true] at he
    exact ⟨he, (Option.some.injEq _ _ ▸ h).symm⟩

theorem digit_not_space {c : Char} (h : c.isDigit = true) : isPySpace c = false := by
  by_contra hs
  simp only [Bool.not_eq_false, isPySpace, Bool.or_eq_true, decide_eq_true_eq] at hs
  rcases hs with ((((rfl | rfl) | rfl) | rfl) | rfl) | rfl <;> simp at h

theorem takeWhile_app {p : Char → Bool} {xs ys : List Char}
    (h : ∀ x ∈ xs, p x = true) :
    (xs ++ ys).takeWhile p = xs ++ ys.takeWhile p := by
  induction xs with
  | nil => rfl
  | cons x xs ih =>
    have hx := h x (List.mem_cons_self x xs)
    simp only [List.cons_append, List.takeWhile_cons, hx, ite_true, List.cons.injEq, true_and]
    exact ih fun a ha => h a (List.mem_cons_of_mem _ ha)

theorem matchEpisode_inv {l : List Char} (h : matchEpisode l = true) :
    l.takeWhile Char.isDigit ≠ [] ∧
      (l.dropWhile Char.isDigit).takeWhile isPySpace ≠ [] ∧
      (meanEqTok ((l.dropWhile Char.isDigit).dropWhile isPySpace)).isSome = true := by
  unfold matchEpisode at h
  split at h
  · simp at h
  next r1 h1 =>
    split at h
    · simp at h
    next r2 h2 =>
      split at h
      · simp at h
      next tok r3 h3 =>
        obtain ⟨hd, h1'⟩ := eatPlus_some h1
        subst h1'
        obtain ⟨hs, h2'⟩ := eatPlus_some h2
        subst h2'
        exact ⟨hd, hs, by rw [h3]; rfl⟩

theorem searchMean_app {suf : List Char} (pre : List Char)
    (h : (meanEqTok suf).isSome = true) :
    (searchMean (pre ++ suf)).isSome = true := by
  induction pre with
  | nil =>
    cases suf with
    | nil => simp [meanEqTok, eatLitC, meanLit] at h
    | cons c cs =>
      rw [List.nil_append]
      obtain ⟨⟨tok, rest⟩, hpr⟩ := Option.isSome_iff_exists.mp h
      simp [searchMean, hpr]
  | cons p ps ih =>
    rw [List.cons_append]
    cases hm : meanEqTok (p :: (ps ++ suf)) with
    | some pr =>
      obtain ⟨tok, rest⟩ := pr
      simp [searchMean, hm]
    | none => simpa [searchMean, hm] using ih

theorem searchMean_of_matchEpisode {l : List Char} (h : matchEpisode l = true) :
    (searchMean l).isSome = true := by
  obtain ⟨-, -, h3⟩ := matchEpisode_inv h
  have hl : l = (l.takeWhile Char.isDigit ++ (l.dropWhile Char.isDigit).takeWhile isPySpace)
      ++ (l.dropWhile Char.isDigit).dropWhile isPySpace := by
    rw [List.append_assoc, List.takeWhile_append_dropWhile, List.takeWhile_append_dropWhile]
  rw [hl]
  exact searchMean_app _ h3

theorem pyInt_parts0 {l : List Char} (h : matchEpisode l = true) :
    pyInt (l.takeWhile fun c => !isPySpace c) =
      some (natOfDigits (l.takeWhile Char.isDigit)) := by
  obtain ⟨hd, hs, -⟩ := matchEpisode_inv h
  have hdig : ∀ x ∈ l.takeWhile Char.isDigit, x.isDigit = true :=
    fun x hx => List.mem_takeWhile_imp hx
  have hparts : (l.takeWhile fun c => !isPySpace c) = l.takeWhile Char.isDigit := by
    conv_lhs => rw [← List.takeWhile_append_dropWhile Char.isDigit l]
    rw [takeWhile_app fun x hx => by simp [digit_not_space (hdig x hx)]]
    cases hrest : l.dropWhile Char.isDigit with
    | nil => simp
    | cons s r' =>
      rw [hrest] at hs
      have hs' : isPySpace s = true := by
        by_contra hns
        simp only [Bool.not_eq_true] at hns
        simp [List.takeWhile_cons, hns] at hs
      simp [List.takeWhile_cons, hs']
  rw [hparts]
  unfold pyInt
  rw [if_pos]
  simp only [Bool.and_eq_true, Bool.not_eq_true', List.all_eq_true]
  exact ⟨List.isEmpty_eq_false.mpr hd, fun x hx => hdig x hx⟩

theorem searchProb_app {suf : List Char} (pre : List Char)
    (h : (probTok suf).isSome = true) :
    (searchProb (pre ++ suf)).isSome = true := by
  induction pre with
  | nil =>
    cases suf with
    | nil => simp [probTok, eatLitC, lit2048] at h
    | cons c cs =>
      rw [List.nil_append]
      obtain ⟨tok, htok⟩ := Option.isSome_iff_exists.mp h
      simp [searchProb, htok]
  | cons p ps ih =>
    rw [List.cons_append]
    cases hm : probTok (p :: (ps ++ suf)) with
    | some tok => simp [searchProb, hm]
    | none => simpa [searchProb, hm] using ih

theorem searchProb_of_matchProb {l : List Char} (h : matchProb l = true) :
    (searchProb l).isSome = true := by
  unfold matchProb at h
  conv_lhs => rw [← List.takeWhile_append_dropWhile isPySpace l]
  exact searchProb_app _ h

/-! ## The effect of one loop iteration -/

theorem matchEpisode_head {l : List Char} (h : matchEpisode l = true) :
    ∃ c cs, l = c :: cs ∧ c.isDigit = true := by
  obtain ⟨hd, -, -⟩ := matchEpisode_inv h
  cases l with
  | nil => simp at hd
  | cons c cs =>
    refine ⟨c, cs, rfl, ?_⟩
    by_contra hc
    simp only [Bool.not_eq_true] at hc
    simp [List.takeWhile_cons, hc] at hd

theorem not_total_of_alpha {l : List Char} (h : startsW alphaPre l = true) :
    startsW totalPre l = false := by
  obtain ⟨r, rfl⟩ := startsW_iff.mp h; rfl

theorem not_seed_of_alpha {l : List Char} (h : startsW alphaPre l = true) :
    startsW seedPre l = false := by
  obtain ⟨r, rfl⟩ := startsW_iff.mp h; rfl

theorem not_alpha_of_total {l : List Char} (h : startsW totalPre l = true) :
    startsW alphaPre l = false := by
  obtain ⟨r, rfl⟩ := startsW_iff.mp h; rfl

theorem not_seed_of_total {l : List Char} (h : startsW totalPre l = true) :
    startsW seedPre l = false := by
  obtain ⟨r, rfl⟩ := startsW_iff.mp h; rfl

theorem not_alpha_of_seed {l : List Char} (h : startsW seedPre l = true) :
    startsW alphaPre l = false := by
  obtain ⟨r, rfl⟩ := startsW_iff.mp h; rfl

theorem not_total_of_seed {l : List Char} (h : startsW seedPre l = true) :
    startsW totalPre l = false := by
  obtain ⟨r, rfl⟩ := startsW_iff.mp h; rfl

theorem matchEpisode_not_meta {l : List Char} (h : matchEpisode l = true) :
    startsW alphaPre l = false ∧ startsW totalPre l = false ∧
      startsW seedPre l = false := by
  obtain ⟨c, cs, rfl, hc⟩ := matchEpisode_head h
  refine ⟨?_, ?_, ?_⟩ <;> {
    simp only [alphaPre, totalPre, seedPre, startsW, Bool.and_eq_false_iff]
    left
    simp only [decide_eq_false_iff_not]
    rintro rfl
    simp at hc
  }

theorem processLine_fields {st st' : ParseState} {raw : List Char}
    (h : processLine st raw = .ok st') :
    st'.metadata.alpha = (alphaVal raw).or st.metadata.alpha ∧
    st'.metadata.total = (totalVal raw).or st.metadata.total ∧
    st'.metadata.seed = (seedVal raw).or st.metadata.seed ∧
    st'.episodes.length
      = st.episodes.length + (if isEpCase raw && !epFails raw then 1 else 0) ∧
    st'.means.length
      = st.means.length + (if isEpCase raw && !epFails raw then 1 else 0) ∧
    st'.prob2048.length
      = st.prob2048.length + (if isEpCase raw then 1 else 0) ∧
    (st.prob2048 ≠ [] → st'.prob2048 ≠ []) := by
  unfold processLine at h
  simp only [] at h
  by_cases ga : startsW alphaPre (pyStrip raw) = true
  · rw [if_pos ga] at h
    split at h
    · rename_i v heq
      rw [splitEq_get1_alpha _ ga] at heq
      simp only [Option.some.injEq] at heq
      simp only [Except.ok.injEq] at h
      subst h
      simp [alphaVal, totalVal, seedVal, isEpCase, ga, heq,
        not_total_of_alpha ga, not_seed_of_alpha ga]
    · rename_i heq
      rw [splitEq_get1_alpha _ ga] at heq
      cases heq
  · rw [if_neg ga] at h
    simp only [Bool.not_eq_true] at ga
    by_cases gt : startsW totalPre (pyStrip raw) = true
    · rw [if_pos gt] at h
      split at h
      · rename_i v heq
        rw [splitEq_get1_total _ gt] at heq
        simp only [Option.some.injEq] at heq
        simp only [Except.ok.injEq] at h
        subst h
        simp [alphaVal, totalVal, seedVal, isEpCase, ga, gt, heq,
          not_seed_of_total gt]
      · rename_i heq
        rw [splitEq_get1_total _ gt] at heq
        cases heq
    · rw [if_neg gt] at h
      simp only [Bool.not_eq_true] at gt
      by_cases gs : startsW seedPre (pyStrip raw) = true
      · rw [if_pos gs] at h
        split at h
        · rename_i v heq
          rw [splitEq_get1_seed _ gs] at heq
          simp only [Option.some.injEq] at heq
          simp only [Except.ok.injEq] at h
          subst h
          simp [alphaVal, totalVal, seedVal, isEpCase, ga, gt, gs, heq]
        · rename_i heq
          rw [splitEq_get1_seed _ gs] at heq
          cases heq
      · rw [if_neg gs] at h
        simp only [Bool.not_eq_true] at gs
        by_cases ge : matchEpisode (pyStrip raw) = true
        · rw [if_pos ge] at h
          split at h
          · rename_i heq
            rw [pyInt_parts0 ge] at heq
            cases heq
          · rename_i ep heq
            split at h
            · rename_i heq2
              simp only [Except.ok.injEq] at h
              subst h
              simp [alphaVal, totalVal, seedVal, isEpCase, epFails, ga, gt, gs, ge, heq2]
            · rename_i tok heq2
              split at h
              · cases h
              · rename_i m heq3
                simp only [Except.ok.injEq] at h
                subst h
                simp [alphaVal, totalVal, seedVal, isEpCase, epFails, ga, gt, gs, ge, heq2]
        · rw [if_neg ge] at h
          simp only [Bool.not_eq_true] at ge
          by_cases gp : matchProb (pyStrip raw) = true
          · rw [if_pos gp] at h
            split at h
            · rename_i heq
              simp only [Except.ok.injEq] at h
              subst h
              simp [alphaVal, totalVal, seedVal, isEpCase, ga, gt, gs, ge]
            · rename_i tok heq
              split at h
              · cases h
              · rename_i p heq2
                split at h
                · cases h
                · rename_i hne
                  simp only [Bool.not_eq_true, List.isEmpty_eq_false] at hne
                  simp only [Except.ok.injEq] at h
                  subst h
                  have hpos : 0 < st.prob2048.length := List.length_pos.mpr hne
                  simp only [alphaVal, totalVal, seedVal, isEpCase, ga, gt, gs, ge]
                  refine ⟨by simp, by simp, by simp, by simp, by simp, ?_, by simp⟩
                  simp only [List.length_append, List.length_dropLast, List.length_cons,
                    List.length_nil, Bool.false_and]
                  simp
                  omega
          · rw [if_neg gp] at h
            simp only [Except.ok.injEq] at h
            subst h
            simp [alphaVal, totalVal, seedVal, isEpCase, ga, gt, gs, ge]

/-! ## Lemmas about the fold over all lines -/

theorem isEpCase_matchEpisode {raw : List Char} (h : isEpCase raw = true) :
    matchEpisode (pyStrip raw) = true := by
  unfold isEpCase at h
  simp only [Bool.and_eq_true] at h
  exact h.2

theorem epFails_false (raw : List Char) : epFails raw = false := by
  unfold epFails
  cases hc : isEpCase raw
  · rfl
  · simp only [Bool.true_and]
    obtain ⟨tok, htok⟩ := Option.isSome_iff_exists.mp
      (searchMean_of_matchEpisode (isEpCase_matchEpisode hc))
    simp [htok]

theorem parseLines_ok_cons {st st' : ParseState} {raw : List Char} {ls : List (List Char)}
    (h : parseLines st (raw :: ls) = .ok st') :
    ∃ st1, processLine st raw = .ok st1 ∧ parseLines st1 ls = .ok st' := by
  unfold parseLines at h
  cases hp : processLine st raw with
  | error e => rw [hp] at h; cases h
  | ok st1 => rw [hp] at h; exact ⟨st1, rfl, h⟩

theorem parseLines_inv {ls : List (List Char)} {st st' : ParseState}
    (h : parseLines st ls = .ok st') (hinv : stateInv st) : stateInv st' := by
  induction ls generalizing st with
  | nil => cases h; exact hinv
  | cons raw ls ih =>
    obtain ⟨st1, hp, hrest⟩ := parseLines_ok_cons h
    obtain ⟨-, -, -, he, hm, hp2, hne⟩ := processLine_fields hp
    refine ih hrest ⟨?_, ?_, hne hinv.2.2⟩
    · rw [he, hm, hinv.1]
    · rw [hm, hp2, hinv.2.1, epFails_false, Bool.not_false, Bool.and_true]

theorem parseLines_counts {ls : List (List Char)} {st st' : ParseState}
    (h : parseLines st ls = .ok st') :
    st'.prob2048.length = st.prob2048.length + ls.countP isEpCase ∧
      st'.episodes.length
        = st.episodes.length + ls.countP (fun raw => isEpCase raw && !epFails raw) ∧
      st'.means.length
        = st.means.length + ls.countP (fun raw => isEpCase raw && !epFails raw) := by
  induction ls generalizing st with
  | nil => cases h; simp
  | cons raw ls ih =>
    obtain ⟨st1, hp, hrest⟩ := parseLines_ok_cons h
    obtain ⟨-, -, -, he, hm, hp2, -⟩ := processLine_fields hp
    obtain ⟨ihp, ihe, ihm⟩ := ih hrest
    rw [List.countP_cons, List.countP_cons]
    refine ⟨?_, ?_, ?_⟩
    · rw [ihp, hp2]; omega
    · rw [ihe, he]; omega
    · rw [ihm, hm]; omega

theorem or_or_some {α : Type} (a b : Option α) (v : α) :
    (a.or (some v)).or b = a.or (some v) := by
  cases a <;> rfl

theorem getLast?_cons_or {α : Type} (a : α) (l : List α) :
    (a :: l).getLast? = l.getLast?.or (some a) := by
  rw [List.getLast?_cons]
  cases l.getLast? <;> rfl

theorem parseLines_alpha {ls : List (List Char)} {st st' : ParseState}
    (h : parseLines st ls = .ok st') :
    st'.metadata.alpha = ((ls.filterMap alphaVal).getLast?).or st.metadata.alpha := by
  induction ls generalizing st with
  | nil => cases h; simp
  | cons raw ls ih =>
    obtain ⟨st1, hp, hrest⟩ := parseLines_ok_cons h
    have h1 := (processLine_fields hp).1
    rw [List.filterMap_cons]
    cases hv : alphaVal raw with
    | none =>
      rw [hv, Option.none_or] at h1
      rw [ih hrest, h1]
    | some v =>
      rw [hv, Option.or_some] at h1
      rw [ih hrest, h1, getLast?_cons_or, or_or_some]

theorem parseLines_total {ls : List (List Char)} {st st' : ParseState}
    (h : parseLines st ls = .ok st') :
    st'.metadata.total = ((ls.filterMap totalVal).getLast?).or st.metadata.total := by
  induction ls generalizing st with
  | nil => cases h; simp
  | cons raw ls ih =>
    obtain ⟨st1, hp, hrest⟩ := parseLines_ok_cons h
    have h1 := (processLine_fields hp).2.1
    rw [List.filterMap_cons]
    cases hv : totalVal raw with
    | none =>
      rw [hv, Option.none_or] at h1
      rw [ih hrest, h1]
    | some v =>
      rw [hv, Option.or_some] at h1
      rw [ih hrest, h1, getLast?_cons_or, or_or_some]

theorem parseLines_seed {ls : List (List Char)} {st st' : ParseState}
    (h : parseLines st ls = .ok st') :
    st'.metadata.seed = ((ls.filterMap seedVal).getLast?).or st.metadata.seed := by
  induction ls generalizing st with
  | nil => cases h; simp
  | cons raw ls ih =>
    obtain ⟨st1, hp, hrest⟩ := parseLines_ok_cons h
    have h1 := (processLine_fields hp).2.2.1
    rw [List.filterMap_cons]
    cases hv : seedVal raw with
    | none =>
      rw [hv, Option.none_or] at h1
      rw [ih hrest, h1]
    | some v =>
      rw [hv, Option.or_some] at h1
      rw [ih hrest, h1, getLast?_cons_or, or_or_some]

theorem processLine_inv {st st' : ParseState} {raw : List Char}
    (h : processLine st raw = .ok st') (hinv : stateInv st) : stateInv st' := by
  obtain ⟨-, -, -, he, hm, hp2, hne⟩ := processLine_fields h
  refine ⟨?_, ?_, hne hinv.2.2⟩
  · rw [he, hm, hinv.1]
  · rw [hm, hp2, hinv.2.1, epFails_false, Bool.not_false, Bool.and_true]

theorem processLine_skip {st : ParseState} {raw : List Char}
    (h : noMatchB raw = true) : processLine st raw = .ok st := by
  unfold noMatchB at h
  simp only [Bool.and_eq_true, Bool.not_eq_true'] at h
  obtain ⟨⟨⟨⟨ha, ht⟩, hs⟩, he⟩, hp⟩ := h
  unfold processLine
  simp only [ha, ht, hs, he, hp, Bool.false_eq_true, if_false]

theorem parseLines_skip {ls : List (List Char)} {st : ParseState}
    (h : ∀ raw ∈ ls, noMatchB raw = true) : parseLines st ls = .ok st := by
  induction ls with
  | nil => rfl
  | cons raw ls ih =>
    unfold parseLines
    rw [processLine_skip (h raw (List.mem_cons_self raw ls))]
    exact ih fun r hr => h r (List.mem_cons_of_mem _ hr)

theorem processLine_total {st : ParseState} {raw : List Char}
    (hinv : stateInv st) (hg : goodLine raw = true) :
    ∃ st', processLine st raw = .ok st' := by
  unfold processLine
  simp only []
  by_cases ga : startsW alphaPre (pyStrip raw) = true
  · rw [if_pos ga]
    simp only [splitEq_get1_alpha _ ga]
    exact ⟨_, rfl⟩
  · rw [if_neg ga]
    simp only [Bool.not_eq_true] at ga
    by_cases gt : startsW totalPre (pyStrip raw) = true
    · rw [if_pos gt]
      simp only [splitEq_get1_total _ gt]
      exact ⟨_, rfl⟩
    · rw [if_neg gt]
      simp only [Bool.not_eq_true] at gt
      by_cases gs : startsW seedPre (pyStrip raw) = true
      · rw [if_pos gs]
        simp only [splitEq_get1_seed _ gs]
        exact ⟨_, rfl⟩
      · rw [if_neg gs]
        simp only [Bool.not_eq_true] at gs
        by_cases ge : matchEpisode (pyStrip raw) = true
        · have hcase : isEpCase raw = true := by simp [isEpCase, ga, gt, gs, ge]
          have hX : (match searchMean (pyStrip raw) with
              | some tok => (pyFloat tok).isSome
              | none => true) = true := by
            unfold goodLine at hg
            simp only [hcase, Bool.not_true, Bool.false_or, Bool.and_eq_true] at hg
            exact hg.1
          rw [if_pos ge]
          cases hsm : searchMean (pyStrip raw) with
          | none =>
            simp only [pyInt_parts0 ge, hsm]
            exact ⟨_, rfl⟩
          | some tok =>
            simp only [hsm] at hX
            obtain ⟨m, hm⟩ := Option.isSome_iff_exists.mp hX
            simp only [pyInt_parts0 ge, hsm, hm]
            exact ⟨_, rfl⟩
        · rw [if_neg ge]
          simp only [Bool.not_eq_true] at ge
          by_cases gp : matchProb (pyStrip raw) = true
          · have hcaseP : isProbCase raw = true := by
              simp [isProbCase, ga, gt, gs, ge, gp]
            have hY : (match searchProb (pyStrip raw) with
                | some tok => (pyFloat tok).isSome
                | none => true) = true := by
              unfold goodLine at hg
              simp only [Bool.and_eq_true] at hg
              have h2 := hg.2
              simp only [hcaseP, Bool.not_true, Bool.false_or] at h2
              exact h2
            rw [if_pos gp]
            cases hsp : searchProb (pyStrip raw) with
            | none =>
              simp only [hsp]
              exact ⟨_, rfl⟩
            | some tok =>
              simp only [hsp] at hY
              obtain ⟨p, hp⟩ := Option.isSome_iff_exists.mp hY
              simp only [hsp, hp, List.isEmpty_eq_false.mpr hinv.2.2,
                Bool.false_eq_true, if_false]
              exact ⟨_, rfl⟩
          · rw [if_neg gp]
            exact ⟨st, rfl⟩

theorem parseLines_allOk {ls : List (List Char)} {st : ParseState}
    (hinv : stateInv st) (hg : ∀ raw ∈ ls, goodLine raw = true) :
    ∃ st', parseLines st ls = .ok st' := by
  induction ls generalizing st with
  | nil => exact ⟨st, rfl⟩
  | cons raw ls ih =>
    obtain ⟨st1, hp⟩ := processLine_total hinv (hg raw (List.mem_cons_self raw ls))
    obtain ⟨st', hrest⟩ :=
      ih (processLine_inv hp hinv) fun r hr => hg r (List.mem_cons_of_mem _ hr)
    refine ⟨st', ?_⟩
    unfold parseLines
    rw [hp]
    exact hrest

/-! ## Lemmas about the tick computation -/

theorem mem_pyRange {a b s : ℕ} (hs : 0 < s) (t : ℕ) :
    t ∈ pyRange a b s ↔ ∃ i, t = a + i * s ∧ a + i * s < b := by
  unfold pyRange
  simp only [List.mem_map, List.mem_range]
  constructor
  · rintro ⟨i, hi, rfl⟩
    refine ⟨i, rfl, ?_⟩
    have h2 : (i + 1) * s ≤ b - a + s - 1 := (Nat.le_div_iff_mul_le hs).mp hi
    have h3 : (i + 1) * s = i * s + s := by ring
    rw [h3] at h2
    generalize i * s = u at h2 ⊢
    omega
  · rintro ⟨i, rfl, hlt⟩
    refine ⟨i, ?_, rfl⟩
    have h2 : (i + 1) * s ≤ b - a + s - 1 := by
      have h3 : (i + 1) * s = i * s + s := by ring
      rw [h3]
      generalize i * s = u at hlt ⊢
      omega
    exact (Nat.le_div_iff_mul_le hs).mpr h2

/-! ## Lemmas for metadata keywords without a separator -/

theorem hasSep_alphaPre (r : List Char) : hasSep (alphaPre ++ r) = true := rfl

theorem hasSep_totalPre (r : List Char) : hasSep (totalPre ++ r) = true := rfl

theorem hasSep_seedPre (r : List Char) : hasSep (seedPre ++ r) = true := rfl

theorem not_alphaPre_of_no_sep {l : List Char} (h : hasSep l = false) :
    startsW alphaPre l = false := by
  cases hw : startsW alphaPre l
  · rfl
  · obtain ⟨r, rfl⟩ := startsW_iff.mp hw
    rw [hasSep_alphaPre] at h
    cases h

theorem not_totalPre_of_no_sep {l : List Char} (h : hasSep l = false) :
    startsW totalPre l = false := by
  cases hw : startsW totalPre l
  · rfl
  · obtain ⟨r, rfl⟩ := startsW_iff.mp hw
    rw [hasSep_totalPre] at h
    cases h

theorem not_seedPre_of_no_sep {l : List Char} (h : hasSep l = false) :
    startsW seedPre l = false := by
  cases hw : startsW seedPre l
  · rfl
  · obtain ⟨r, rfl⟩ := startsW_iff.mp hw
    rw [hasSep_seedPre] at h
    cases h

theorem matchEpisode_alphaKw (r : List Char) :
    matchEpisode ("alpha".data ++ r) = false := rfl

theorem matchEpisode_totalKw (r : List Char) :
    matchEpisode ("total".data ++ r) = false := rfl

theorem matchEpisode_seedKw (r : List Char) :
    matchEpisode ("seed".data ++ r) = false := rfl

theorem matchProb_alphaKw (r : List Char) :
    matchProb ("alpha".data ++ r) = false := rfl

theorem matchProb_totalKw (r : List Char) :
    matchProb ("total".data ++ r) = false := rfl

theorem matchProb_seedKw (r : List Char) :
    matchProb ("seed".data ++ r) = false := rfl

/-! ## Claim theorems -/

/-- C6: for every input in which no line matches a metadata, episode, or
probability pattern (including the empty string), the parser returns empty
metadata and the three sequences each holding exactly the sentinel entry:
`episodes = [0]`, `means = [0]`, `tileProbability = [0.0]`. -/
theorem claim_C6_unrecognized_input_yields_sentinels
    (data : List Char)
    (h : ∀ raw ∈ linesOf data, noMatchB raw = true) :
    parse_2048_training_data data =
      .ok (⟨none, none, none⟩, [0], [0], [0]) := by
  unfold parse_2048_training_data runParse
  rw [parseLines_skip h]
  rfl

/-- C6 witness: the claim theorem applied to a concrete two-line input with
no recognized lines. -/
theorem claim_C6_witness :
    parse_2048_training_data ("hello\nworld".data) =
      .ok (⟨none, none, none⟩, [0], [0], [0]) :=
  claim_C6_unrecognized_input_yields_sentinels _ (by decide)

/-- C9: the parse is a pure, deterministic function of its input string:
two invocations on the same input yield structurally identical outputs,
with no other state involved. -/
theorem claim_C9_parse_deterministic (d1 d2 : List Char) (h : d1 = d2) :
    parse_2048_training_data d1 = parse_2048_training_data d2 := by
  rw [h]

/-- C9 witness: the claim theorem applied to a concrete input parsed
twice. -/
theorem claim_C9_witness :
    parse_2048_training_data ("seed = 9".data)
      = parse_2048_training_data ("seed = 9".data) :=
  claim_C9_parse_deterministic _ _ rfl

/-- C10: after any number of processed lines of any input the probability
sequence is nonempty (it starts with the sentinel and never shrinks), so
the overwrite of its last element is always well-defined; concretely, a
probability line arriving before any episode line overwrites the sentinel
instead of faulting. -/
theorem claim_C10_prob_list_never_empty :
    (∀ (data : List Char) (k : ℕ) (st : ParseState),
        parseLines initState ((linesOf data).take k) = .ok st →
          st.prob2048 ≠ []) ∧
      parse_2048_training_data ("2048 3.25%".data) =
        .ok (⟨none, none, none⟩, [0], [0], [mkRat 13 4]) := by
  constructor
  · intro data k st h
    exact (parseLines_inv h ⟨rfl, rfl, List.cons_ne_nil _ _⟩).2.2
  · decide

/-- C10 witness: the invariant applied after the first line of an input
whose first line is a probability line. -/
theorem claim_C10_witness :
    (ParseState.mk ⟨none, none, none⟩ [0] [0] [mkRat 13 4]).prob2048 ≠ [] :=
  claim_C10_prob_list_never_empty.1 ("2048 3.25%".data) 1 _ (by decide)

/-- C4: whenever the parse completes without raising, the three returned
sequences have equal length, each at least 1 (the coarse episode pattern
guarantees the secondary mean search succeeds, so every probability
placeholder is matched by an episode and a mean entry). -/
theorem claim_C4_aligned_lengths (data : List Char) (md : Metadata)
    (eps : List ℕ) (ms ps : List ℚ)
    (h : parse_2048_training_data data = .ok (md, eps, ms, ps)) :
    eps.length = ms.length ∧ ms.length = ps.length ∧ 1 ≤ eps.length := by
  unfold parse_2048_training_data runParse at h
  cases hr : parseLines initState (linesOf data) with
  | error e => rw [hr] at h; cases h
  | ok st =>
    rw [hr] at h
    simp only [Except.map, Except.ok.injEq, Prod.mk.injEq] at h
    obtain ⟨-, h2, h3, h4⟩ := h
    subst h2
    subst h3
    subst h4
    obtain ⟨hinv1, hinv2, hinv3⟩ := parseLines_inv hr ⟨rfl, rfl, List.cons_ne_nil _ _⟩
    have hp := List.length_pos.mpr hinv3
    exact ⟨hinv1, hinv2, by omega⟩

/-- C4 witness: the claim theorem applied to a one-episode input. -/
theorem claim_C4_witness :
    ([0, 100] : List ℕ).length = ([0, mkRat 25 2] : List ℚ).length ∧
      ([0, mkRat 25 2] : List ℚ).length = ([0, 0] : List ℚ).length ∧
      1 ≤ ([0, 100] : List ℕ).length :=
  claim_C4_aligned_lengths ("100 mean = 12.5 max = 20".data)
    ⟨none, none, none⟩ _ _ _ (by decide)

/-- C2: for each line classified as an episode line a `0.0` placeholder is
appended to the probability sequence whether or not the secondary mean
extraction succeeds, while episode and mean are appended only on success;
hence the probability sequence exceeds the episode sequence by exactly the
number of episode lines whose secondary extraction fails, and the
misalignment occurs exactly when some episode line's secondary mean
extraction fails. -/
theorem claim_C2_misalignment_iff_mean_extraction_fails
    (data : List Char) (st : ParseState)
    (h : runParse data = .ok st) :
    st.prob2048.length = st.episodes.length + (linesOf data).countP epFails ∧
      (st.prob2048.length ≠ st.episodes.length ↔
        ∃ raw ∈ linesOf data, epFails raw = true) := by
  obtain ⟨hp, he, -⟩ := parseLines_counts h
  have hzero : (linesOf data).countP epFails = 0 :=
    List.countP_eq_zero.mpr fun a _ => by simp [epFails_false]
  have hcong : (linesOf data).countP (fun raw => isEpCase raw && !epFails raw)
      = (linesOf data).countP isEpCase :=
    List.countP_congr fun a _ => by rw [epFails_false]; simp
  rw [hcong] at he
  constructor
  · rw [hp, he, hzero]
    rfl
  · constructor
    · intro hne
      exact absurd (by rw [hp, he]; rfl) hne
    · rintro ⟨raw, -, hf⟩
      rw [epFails_false] at hf
      cases hf

/-- C2 witness: the claim theorem applied to a one-episode input. -/
theorem claim_C2_witness :
    (ParseState.mk ⟨none, none, none⟩ [0, 5] [0, mkRat 3 2] [0, 0]).prob2048.length
        = (ParseState.mk ⟨none, none, none⟩ [0, 5] [0, mkRat 3 2] [0, 0]).episodes.length
          + (linesOf ("5 mean = 1.5 max = 2".data)).countP epFails ∧
      ((ParseState.mk ⟨none, none, none⟩ [0, 5] [0, mkRat 3 2] [0, 0]).prob2048.length
          ≠ (ParseState.mk ⟨none, none, none⟩ [0, 5] [0, mkRat 3 2] [0, 0]).episodes.length ↔
        ∃ raw ∈ linesOf ("5 mean = 1.5 max = 2".data), epFails raw = true) :=
  claim_C2_misalignment_iff_mean_extraction_fails _ _ (by decide)

/-- C3 counterexample: in the line `1 mean = . max = 1` the coarse episode
pattern matches and the secondary search succeeds with token `.`, but
`float('.')` raises `ValueError`, so the parse call raises even though
every metadata line (there are none) is well-formed — the parser is not
total and a decimal-extraction failure inside a matching line is not
tolerated. -/
theorem claim_C3_counterexample :
    matchEpisode (pyStrip ("1 mean = . max = 1".data)) = true ∧
      parse_2048_training_data ("1 mean = . max = 1".data)
        = .error .valueError := by
  decide

/-- C3 (amended): a failed secondary regex search inside a coarsely
matching line is indeed tolerated (the guard silently drops the line's
contribution), and the parse completes without raising on every input all
of whose extracted numeric tokens are accepted by `float`; it is not total
beyond that, since a matched token such as `.` makes `float` raise. -/
theorem claim_C3_amended_total_on_numeric_tokens
    (data : List Char)
    (h : ∀ raw ∈ linesOf data, goodLine raw = true) :
    ∃ out, parse_2048_training_data data = .ok out := by
  obtain ⟨st, hst⟩ :=
    parseLines_allOk (⟨rfl, rfl, List.cons_ne_nil _ _⟩ : stateInv initState) h
  refine ⟨(st.metadata, st.episodes, st.means, st.prob2048), ?_⟩
  unfold parse_2048_training_data runParse
  rw [hst]
  rfl

/-- C3 witness: the amended theorem applied to a three-line input holding
one line of each recognized shape. -/
theorem claim_C3_witness :
    ∃ out, parse_2048_training_data
        ("alpha = 0.1\n100 mean = 2 max = 4\n2048 50%".data) = .ok out :=
  claim_C3_amended_total_on_numeric_tokens _ (by decide)

/-- C1 counterexample: on the line `alpha = 1 = 2` the code stores `1`
(the slice between the first and second separators), not the substring
after the first ` = ` separator, which is `1 = 2`. -/
theorem claim_C1_counterexample :
    parse_2048_training_data ("alpha = 1 = 2".data) =
        .ok (⟨some ['1'], none, none⟩, [0], [0], [0]) ∧
      afterFirstSep (pyStrip ("alpha = 1 = 2".data)) = some ("1 = 2".data) ∧
      (['1'] : List Char) ≠ ("1 = 2".data) := by
  decide

/-- C1 (amended): a trimmed line beginning with `alpha = `, `total = ` or
`seed = ` stores under the corresponding key the substring after the first
` = ` separator truncated at the next occurrence of ` = ` (the whole
remainder when there is no second occurrence), as an uncoerced character
string; when a key occurs on several lines the last one wins. -/
theorem claim_C1_amended_metadata_last_write
    (data : List Char) (st : ParseState)
    (h : runParse data = .ok st) :
    st.metadata.alpha = ((linesOf data).filterMap alphaVal).getLast? ∧
      st.metadata.total = ((linesOf data).filterMap totalVal).getLast? ∧
      st.metadata.seed = ((linesOf data).filterMap seedVal).getLast? := by
  refine ⟨?_, ?_, ?_⟩
  · have h1 := parseLines_alpha h
    cases hv : ((linesOf data).filterMap alphaVal).getLast? with
    | none => rw [hv] at h1; exact h1
    | some v => rw [hv] at h1; exact h1
  · have h1 := parseLines_total h
    cases hv : ((linesOf data).filterMap totalVal).getLast? with
    | none => rw [hv] at h1; exact h1
    | some v => rw [hv] at h1; exact h1
  · have h1 := parseLines_seed h
    cases hv : ((linesOf data).filterMap seedVal).getLast? with
    | none => rw [hv] at h1; exact h1
    | some v => rw [hv] at h1; exact h1

/-- C1 witness: the amended theorem applied to an input with one `alpha`
line and two `seed` lines, the later of which wins. -/
theorem claim_C1_witness :
    (ParseState.mk ⟨some ['0', '.', '1'], none, some ['7']⟩ [0] [0] [0]).metadata.alpha
        = ((linesOf ("alpha = 0.1\nseed = 42\nseed = 7".data)).filterMap alphaVal).getLast? ∧
      (ParseState.mk ⟨some ['0', '.', '1'], none, some ['7']⟩ [0] [0] [0]).metadata.total
        = ((linesOf ("alpha = 0.1\nseed = 42\nseed = 7".data)).filterMap totalVal).getLast? ∧
      (ParseState.mk ⟨some ['0', '.', '1'], none, some ['7']⟩ [0] [0] [0]).metadata.seed
        = ((linesOf ("alpha = 0.1\nseed = 42\nseed = 7".data)).filterMap seedVal).getLast? :=
  claim_C1_amended_metadata_last_write _ _ (by decide)

/-- C5 counterexample: the line `alpha 0.1` starts with the metadata
keyword `alpha` and holds no ` = ` separator, yet the parse completes
normally with the sentinel result instead of failing — the prefix test
itself includes the separator, so such a line never reaches the split. -/
theorem claim_C5_counterexample :
    startsW ("alpha".data) (pyStrip ("alpha 0.1".data)) = true ∧
      hasSep (pyStrip ("alpha 0.1".data)) = false ∧
      parse_2048_training_data ("alpha 0.1".data) =
        .ok (⟨none, none, none⟩, [0], [0], [0]) := by
  decide

/-- C5 (amended): a line starting with a metadata keyword but lacking the
` = ` separator fails every prefix test (each prefix contains the
separator) and matches neither remaining pattern, so it is silently
ignored: the iteration returns the state unchanged and no
index-out-of-range fault can arise. -/
theorem claim_C5_amended_keyword_without_sep_ignored
    (st : ParseState) (raw : List Char)
    (hkw : startsW ("alpha".data) (pyStrip raw) = true ∨
        startsW ("total".data) (pyStrip raw) = true ∨
        startsW ("seed".data) (pyStrip raw) = true)
    (hsep : hasSep (pyStrip raw) = false) :
    processLine st raw = .ok st := by
  apply processLine_skip
  unfold noMatchB
  simp only [not_alphaPre_of_no_sep hsep, not_totalPre_of_no_sep hsep,
    not_seedPre_of_no_sep hsep, Bool.not_false, Bool.true_and]
  rcases hkw with hk | hk | hk <;> obtain ⟨r, hr⟩ := startsW_iff.mp hk <;> rw [hr]
  · rw [matchEpisode_alphaKw, matchProb_alphaKw]
    rfl
  · rw [matchEpisode_totalKw, matchProb_totalKw]
    rfl
  · rw [matchEpisode_seedKw, matchProb_seedKw]
    rfl

/-- C5 witness: the amended theorem applied to the line `total 50` from
the sentinel start state. -/
theorem claim_C5_witness :
    processLine initState ("total 50".data) = .ok initState :=
  claim_C5_amended_keyword_without_sep_ignored initState _ (by decide) (by decide)

/-- C7 counterexample: for episodes `[0, 5000]` the code builds
`range(0, 5001, 500)`, eleven ticks ending at 5000, while the claimed
formula (upper bound `floor(max/1000)*1000 + 1000`, ten even steps) gives
ticks of stride 600 ending at 5400 — the code adds 1 to the upper bound,
not 1000. -/
theorem claim_C7_counterexample :
    xticksOf [0, 5000]
        = .ok [0, 500, 1000, 1500, 2000, 2500, 3000, 3500, 4000, 4500, 5000] ∧
      specXticks [0, 5000]
        = [0, 600, 1200, 1800, 2400, 3000, 3600, 4200, 4800, 5400] ∧
      xticksOf [0, 5000] ≠ .ok (specXticks [0, 5000]) := by
  decide

/-- C7 (amended): for every nonempty episode sequence whose tick step
`((floor(max/1000)*1000 + 1) - floor(min/1000)*1000) // 10` is nonzero,
both charts receive the ticks `range(x_min, x_max, step)` with
`x_min = floor(min/1000)*1000` and `x_max = floor(max/1000)*1000 + 1`:
an arithmetic progression from `x_min` of stride `step` staying strictly
below `x_max`. -/
theorem claim_C7_amended_tick_progression (e : ℕ) (es : List ℕ)
    (hstep : ((es.foldl max e) / 1000 * 1000 + 1 - (es.foldl min e) / 1000 * 1000) / 10
      ≠ 0) :
    ∃ ticks, xticksOf (e :: es) = .ok ticks ∧
      ∀ t, t ∈ ticks ↔
        ∃ i, t = (es.foldl min e) / 1000 * 1000 + i *
              (((es.foldl max e) / 1000 * 1000 + 1
                - (es.foldl min e) / 1000 * 1000) / 10) ∧
          (es.foldl min e) / 1000 * 1000 + i *
              (((es.foldl max e) / 1000 * 1000 + 1
                - (es.foldl min e) / 1000 * 1000) / 10)
            < (es.foldl max e) / 1000 * 1000 + 1 := by
  have hx : xticksOf (e :: es) =
      .ok (pyRange ((es.foldl min e) / 1000 * 1000)
        ((es.foldl max e) / 1000 * 1000 + 1)
        (((es.foldl max e) / 1000 * 1000 + 1 - (es.foldl min e) / 1000 * 1000) / 10)) := by
    unfold xticksOf
    simp only []
    rw [if_neg hstep]
  exact ⟨_, hx, fun t => mem_pyRange (Nat.pos_of_ne_zero hstep) t⟩

/-- C7 witness: the amended theorem applied to episodes `[0, 5000]`. -/
theorem claim_C7_witness :
    ∃ ticks, xticksOf (0 :: [5000]) = .ok ticks ∧
      ∀ t, t ∈ ticks ↔
        ∃ i, t = ([5000].foldl min 0) / 1000 * 1000 + i *
              ((([5000].foldl max 0) / 1000 * 1000 + 1
                - ([5000].foldl min 0) / 1000 * 1000) / 10) ∧
          ([5000].foldl min 0) / 1000 * 1000 + i *
              ((([5000].foldl max 0) / 1000 * 1000 + 1
                - ([5000].foldl min 0) / 1000 * 1000) / 10)
            < ([5000].foldl max 0) / 1000 * 1000 + 1 :=
  claim_C7_amended_tick_progression 0 [5000] (by decide)

/-- C8: when the minimum and maximum episodes lie in the same
multiple-of-1000 block — in particular for the sentinel-only sequence
`[0]` produced by an input with no episode lines — the tick step
`(x_max - x_min) // 10` computes to 0 and the `range` construction raises,
so chart rendering fails rather than producing a chart. -/
theorem claim_C8_zero_step_fault (e : ℕ) (es : List ℕ)
    (h : (es.foldl min e) / 1000 = (es.foldl max e) / 1000) :
    ((es.foldl max e) / 1000 * 1000 + 1 - (es.foldl min e) / 1000 * 1000) / 10 = 0 ∧
      xticksOf (e :: es) = .error .valueError := by
  have hstep :
      ((es.foldl max e) / 1000 * 1000 + 1 - (es.foldl min e) / 1000 * 1000) / 10 = 0 := by
    rw [h]
    rw [Nat.add_sub_cancel_left]
  refine ⟨hstep, ?_⟩
  unfold xticksOf
  simp only []
  rw [if_pos hstep]

/-- C8 witness: the claim theorem applied to the sentinel-only episode
sequence `[0]`. -/
theorem claim_C8_witness :
    ((([] : List ℕ).foldl max 0) / 1000 * 1000 + 1
        - (([] : List ℕ).foldl min 0) / 1000 * 1000) / 10 = 0 ∧
      xticksOf (0 :: ([] : List ℕ)) = .error .valueError :=
  claim_C8_zero_step_fault 0 [] rfl
